import Mathlib

/-!
Verification of the CLI Provisioning Engine of the
`cloud-native-toolkit/terraform-provider-clis` repository against its
natural-language specification.

The Go source is shallowly embedded: pure helpers become Lean functions,
and the effectful routines (`setupNamedCli`, `cliAlreadyPresent`,
`createSymLink`, `extractTarGz`, `getLatestGitHubRelease`) become functions
over explicit environment/state records that capture the outcomes of the
operating-system and network calls they make.  The embedding follows
`src/internal/provider` (the current implementation, `part_007`); where the
legacy `clis` package variant (`part_011`) differs it is noted in comments.
-/

namespace Clis

/-! ## Tool-list helpers (`internal/provider/helpers.go`) -/

/-- Embedding of `unique` from `helpers.go`: walks the list front to back,
keeping the first occurrence of each entry.  The Go `keys` map of
already-seen entries becomes an accumulator list. -/
def uniqueAux : List String → List String → List String
  | [], _ => []
  | x :: xs, seen => if x ∈ seen then uniqueAux xs seen else x :: uniqueAux xs (x :: seen)

def unique (l : List String) : List String := uniqueAux l []

/-- The five default tools merged into every request
(`data_clis_check.go` / `part_007` line 123). -/
def defaultClis : List String := ["yq", "jq", "igc", "kubeseal", "oc"]

/-- The final tool list computed by `CliCheckDataSource.Read`
(`part_007` line 124): `unique(append(defaultClis, requested...))`. -/
def finalClis (requested : List String) : List String :=
  unique (defaultClis ++ requested)

/-! ## Archive member extraction (`extractTarGz`, `part_007` lines 1110-1151)

The gzip decoding and tar framing are handled by the Go standard library;
a well-formed stream is embedded directly as the sequence of tar entries it
contains.  The filesystem write performed by `extractFileFromTar`
(`os.OpenFile` with truncate-create plus `io.Copy`) is modelled by an
environment field `writeErr` giving the outcome of such a write; the
destination file's content is tracked explicitly. -/

inductive TarType where
  | dir
  | reg
  | other
deriving DecidableEq, Repr

structure TarEntry where
  type : TarType
  name : String
  content : String
deriving DecidableEq, Repr

/-- Outcome of one `extractTarGz` run on a well-formed stream:
the content of the destination file (`none` = never created) and the
number of members that were extracted into it. -/
structure ExtractResult where
  dest : Option String
  extractions : Nat
deriving DecidableEq, Repr

structure TarEnv where
  /-- Result of `extractFileFromTar`'s open/copy of the destination file:
  `none` = success.  (`part_007` propagates this error and stops;
  `part_011` drops it and keeps walking.) -/
  writeErr : Option String

/-- The `for { tarReader.Next() ... }` walk of `extractTarGz`
(`part_007` lines 1118-1148).  Directory entries and unknown type flags are
skipped; a regular entry whose name differs from `targetFile` is skipped;
a matching regular entry is extracted (truncate-create, so a later match
overwrites an earlier one).  There is no `break` after a successful
extraction, so the walk only ends at end-of-archive or on a write error. -/
def extractTarGzLoop (env : TarEnv) (targetFile : String) :
    List TarEntry → Option String → Nat → Except String ExtractResult
  | [], dest, n => .ok ⟨dest, n⟩
  | e :: rest, dest, n =>
    match e.type with
    | .dir => extractTarGzLoop env targetFile rest dest n
    | .other => extractTarGzLoop env targetFile rest dest n
    | .reg =>
      if e.name ≠ targetFile then extractTarGzLoop env targetFile rest dest n
      else
        match env.writeErr with
        | some err => .error err
        | none => extractTarGzLoop env targetFile rest (some e.content) (n + 1)

/-- Embedding of `extractTarGz` on a well-formed gzip/tar stream: after the
walk terminates by exhausting the archive, the function returns the outer
`err` left over from the successful `gzip.NewReader` call, which is `nil`
(the per-iteration `err` of `tarReader.Next` is a fresh, loop-scoped
variable). -/
def extractTarGz (env : TarEnv) (entries : List TarEntry) (targetFile : String) :
    Except String ExtractResult :=
  extractTarGzLoop env targetFile entries none 0

/-- The regular-file entries of the archive whose path equals the target. -/
def matchingEntries (entries : List TarEntry) (targetFile : String) : List TarEntry :=
  entries.filter (fun e => e.type = .reg ∧ e.name = targetFile)

/-- Each extraction truncates and rewrites the destination file, so the
final content is a left fold of the matching entries over the initial
content. -/
def overwriteFold (dest : Option String) (l : List TarEntry) : Option String :=
  l.foldl (fun _ e => some e.content) dest

/-! ## Version parsing (`cleanVersionString`, `part_007` lines 970-992)

`cleanVersionString` matches the Go regular expression
`[^\d]*(?P<Major>\d+).(?P<Minor>\d+)[.]?(?P<Patch>\d*).*`
against the raw version output (`regexp.FindStringSubmatch`, leftmost-first
semantics) and joins the three capture groups with dots, replacing an empty
group by `"0"`.  The embedding reproduces that specific pattern's search:

* the leading `[^\d]*` can only stop at a digit, so candidate anchors for
  `Major` are exactly the digit positions of the string, scanned left to
  right;
* `Major` (`\d+`, greedy) backtracks from the full digit run down to one
  digit; the following `.` is any single non-newline character;
* `Minor` (`\d+`) then takes the maximal digit run, `[.]?` consumes a
  literal dot if present, `Patch` (`\d*`) takes the maximal digit run, and
  the trailing `.*` always succeeds, so none of those backtrack. -/

/-- Try `Major` anchored at the head of `l` with length `m` (counting down);
returns the `(Major, Minor, Patch)` groups of the first length that admits a
match of the rest of the pattern. -/
def tryMajorLen (l : List Char) : Nat → Option (List Char × List Char × List Char)
  | 0 => none
  | m + 1 =>
    match l.drop (m + 1) with
    | [] => tryMajorLen l m
    | sep :: rest2 =>
      if sep = '\n' then tryMajorLen l m
      else
        let minor := rest2.takeWhile Char.isDigit
        if minor.isEmpty then tryMajorLen l m
        else
          let r3 := rest2.drop minor.length
          let r4 := match r3 with
            | '.' :: t => t
            | _ => r3
          some (l.take (m + 1), minor, r4.takeWhile Char.isDigit)

def tryMajorAt (l : List Char) : Option (List Char × List Char × List Char) :=
  tryMajorLen l (l.takeWhile Char.isDigit).length

/-- Leftmost-first search: the overall match anchors `Major` at the first
digit position from which the rest of the pattern succeeds. -/
def findVersionMatch : List Char → Option (List Char × List Char × List Char)
  | [] => none
  | c :: rest =>
    if c.isDigit then
      match tryMajorAt (c :: rest) with
      | some r => some r
      | none => findVersionMatch rest
    else findVersionMatch rest

/-- Embedding of `cleanVersionString` (`part_007` lines 970-992): the dot-join
of the `Major`/`Minor`/`Patch` groups with empty groups replaced by `"0"`,
or `""` when the pattern does not match (`FindStringSubmatch` returns `nil`
and the join loop never runs). -/
def cleanVersionString (value : String) : String :=
  match findVersionMatch value.data with
  | none => ""
  | some (major, minor, patch) =>
    String.mk major ++ "." ++ String.mk minor ++ "." ++
      (if patch.isEmpty then "0" else String.mk patch)

/-! ## The `hashicorp/go-version` dependency

`cliAlreadyPresent` hands `cleanVersionString`'s result and the desired
minimum version to `version.NewVersion` / `Version.LessThan` from the
`github.com/hashicorp/go-version` module, which is not vendored under the
repository sources.  Modelled from that module's documented behaviour for
the inputs that arise here: `NewVersion` accepts an optional leading `v`
followed by one or more dot-separated, nonempty, all-digit segments and
fails on anything else (in particular on the empty string produced by a
failed `cleanVersionString` match); comparison is segment-wise numeric with
missing segments treated as zero.  (Pre-release/metadata suffixes never
occur in this engine's inputs and are not modelled.) -/

def splitOnDot : List Char → List (List Char)
  | [] => [[]]
  | c :: rest =>
    if c = '.' then [] :: splitOnDot rest
    else
      match splitOnDot rest with
      | g :: gs => (c :: g) :: gs
      | [] => [[c]]

def parseNatDigits (l : List Char) : Nat :=
  l.foldl (fun acc c => acc * 10 + (c.toNat - 48)) 0

def goVersionParse (s : String) : Option (List Nat) :=
  let l := if s.data.head? = some 'v' then s.data.drop 1 else s.data
  let groups := splitOnDot l
  if groups.all (fun g => ¬g.isEmpty ∧ g.all Char.isDigit) then
    some (groups.map parseNatDigits)
  else none

def versionLt : List Nat → List Nat → Bool
  | [], b => b.any (fun y => 0 < y)
  | _ :: _, [] => false
  | x :: xs, y :: ys => if x < y then true else if y < x then false else versionLt xs ys

/-! ## Presence check and symlink creation
(`cliAlreadyPresent` / `createSymLink`, `part_007` lines 923-968 and
1210-1229)

The operating-system calls these routines make are captured in an
environment record: `exec.LookPath`, `os.Stat`/`os.Lstat` (via
`fileExists`), the `cli --version` subprocess, and `os.Symlink`. -/

/-- Result of `os.Stat` on a path: the file exists, it does not exist
(`os.ErrNotExist`), or `Stat` fails with some other error. -/
inductive StatRes where
  | found
  | notFound
  | errAccess (msg : String)
deriving DecidableEq, Repr

structure Env where
  /-- `exec.LookPath name`: `.ok path` on success, `.error msg` on error. -/
  lookPath : String → Except String String
  /-- `exec.Command(name, "--version").Output()`: combined result. -/
  versionOutput : String → Except String String
  /-- `os.Stat` / `os.Lstat` on a path (used through `fileExists`). -/
  stat : String → StatRes
  /-- Result of `os.Symlink`: `none` = success. -/
  symlinkErr : Option String

/-- Embedding of `fileExists` (`helpers.go` lines 87-96; the legacy copy in
`part_011` uses `os.Stat` instead of `os.Lstat`, with the same shape). -/
def fileExists (env : Env) (filename : String) : Bool × Option String :=
  match env.stat filename with
  | .found => (true, none)
  | .notFound => (false, none)
  | .errAccess m => (false, some m)

/-- Result of `createSymLink`: the returned `(changed, err)` pair plus
whether `os.Symlink` was actually invoked (the only filesystem mutation the
routine can perform). -/
structure SymLinkResult where
  changed : Bool
  err : Option String
  symlinkCalled : Bool
deriving DecidableEq, Repr

/-- Embedding of `createSymLink` (`part_007` lines 1210-1229): if the link
destination already exists (or `fileExists` errors) return `(false, err)`;
if `LookPath` fails return `(false, err)`; if the resolved path *is* the
link destination return `(false, nil)`; otherwise call `os.Symlink` and
return `(true, err)`. -/
def createSymLink (env : Env) (cli linkTo : String) : SymLinkResult :=
  match fileExists env linkTo with
  | (true, e) => ⟨false, e, false⟩
  | (false, some e) => ⟨false, some e, false⟩
  | (false, none) =>
    match env.lookPath cli with
    | .error e => ⟨false, some e, false⟩
    | .ok cliPath =>
      if cliPath = linkTo then ⟨false, none, false⟩
      else ⟨true, env.symlinkErr, true⟩

/-- Outcome of `cliAlreadyPresent`: the boolean it returns, or `fatal` when
it terminates the whole process through `log.Fatal`. -/
inductive PresOutcome where
  | ret (b : Bool)
  | fatal
deriving DecidableEq, Repr

inductive GateRes where
  | proceed
  | below
  | die
deriving DecidableEq, Repr

/-- The minimum-version gate inside `cliAlreadyPresent` (`part_007` lines
935-959): skipped when no constraint is given, when the `--version`
subprocess fails (only a warning is logged), or when its output is empty;
otherwise the current and desired versions are parsed with
`version.NewVersion` and a parse failure of either one reaches
`log.Fatal(err1)` / `log.Fatal(err2)` (`die`).  A current version below the
constraint returns `false` (`below`); otherwise control falls through to
the symlink step (`proceed`).  (`part_011` lines 818-842 orders the same
four branches differently but sends both parse failures to `log.Fatal` as
well.) -/
def versionGate (env : Env) (cliName minVersion : String) : GateRes :=
  if minVersion.length = 0 then .proceed
  else
    match env.versionOutput cliName with
    | .error _ => .proceed
    | .ok out =>
      if out.length = 0 then .proceed
      else
        match goVersionParse (cleanVersionString out), goVersionParse minVersion with
        | none, _ => .die
        | some _, none => .die
        | some cur, some des => if versionLt cur des then .below else .proceed

/-- `strings.HasPrefix(s, pre)` on the underlying characters. -/
def goHasPre (s pre : String) : Bool := pre.data.isPrefixOf s.data

/-- Embedding of `cliAlreadyPresent` (`part_007` lines 923-968): not found
on `PATH` → `false`; resolved under `destDir` → `true`; otherwise run the
version gate and, unless it returned `false` or killed the process, create
a symlink in `destDir` and return its `changed` result (a symlink error is
only logged).  `filepath.Join(destDir, cliName)` is written
`destDir ++ "/" ++ cliName`. -/
def cliAlreadyPresent (env : Env) (destDir cliName minVersion : String) : PresOutcome :=
  match env.lookPath cliName with
  | .error _ => .ret false
  | .ok cliPath =>
    if cliPath.length = 0 then .ret false
    else if goHasPre cliPath destDir then .ret true
    else
      match versionGate env cliName minVersion with
      | .die => .fatal
      | .below => .ret false
      | .proceed => .ret (createSymLink env cliName (destDir ++ "/" ++ cliName)).changed

/-! ## Latest-release resolution (`getLatestGitHubRelease`, `part_007`
lines 887-921)

The single HTTP request (with redirects disabled via `ErrUseLastResponse`)
is embedded as the function's input: either a transport error or a response
carrying the `Location` header (`Header.Get` yields `""` when the header is
missing).  The tag is recovered with the Go regular expression
`.*/tag/(.+)`: `.`/`.+` do not cross newlines and the leading `.*` is
greedy, so the group is everything after the *last* occurrence of `/tag/`
(followed by at least one character) in the first newline-delimited line
that contains such an occurrence, up to the end of that line. -/

def tagLit : List Char := ['/', 't', 'a', 'g', '/']

/-- Does `/tag/` occur anywhere in `l` (at any position)? -/
def containsTagLit : List Char → Bool
  | [] => false
  | c :: rest => decide ((c :: rest).take 5 = tagLit) || containsTagLit rest

/-- Within one newline-free line, the capture group of `.*/tag/(.+)`:
the suffix after the last occurrence of `/tag/` that is followed by at
least one character.  The recursion prefers a match found further right. -/
def tagSuffixNL : List Char → Option (List Char)
  | [] => none
  | c :: rest =>
    match tagSuffixNL rest with
    | some g => some g
    | none =>
      if (c :: rest).take 5 = tagLit ∧ (c :: rest).length > 5 then
        some ((c :: rest).drop 5)
      else none

def splitLines : List Char → List (List Char)
  | [] => [[]]
  | c :: rest =>
    if c = '\n' then [] :: splitLines rest
    else
      match splitLines rest with
      | g :: gs => (c :: g) :: gs
      | [] => [[c]]

def firstSome : List (Option (List Char)) → Option (List Char)
  | [] => none
  | o :: rest =>
    match o with
    | some g => some g
    | none => firstSome rest

/-- `regexp.MustCompile(".*/tag/(.+)").FindStringSubmatch`: the capture
group of the leftmost-first match, scanning lines in order. -/
def findTagGroup (s : String) : Option String :=
  (firstSome ((splitLines s.data).map tagSuffixNL)).map String.mk

inductive GHError where
  | network (msg : String)
  | noLocation
  | cantParseTag
deriving DecidableEq, Repr

/-- The HTTP exchange `client.Get(url)` performed by
`getLatestGitHubRelease`: a transport error, or a response whose
`Location` header is the given string (`""` when the header is absent). -/
structure GHResponse where
  location : String
deriving DecidableEq, Repr

/-- Embedding of `getLatestGitHubRelease` (`part_007` lines 887-921) as a
function of its single HTTP exchange: a transport error is propagated; an
empty `Location` header yields the "unable to retrieve location header"
error; a `Location` value without a parsable `/tag/` suffix yields the
"unable to parse latest tag" error; otherwise the tag is the regex group.
The deferred `resp.Body.Close()` writes any close error to a local `err`
that is not a named return value, so it never alters the result, and no
retry of the request exists on any path. -/
def getLatestGitHubRelease (exchange : Except String GHResponse) : Except GHError String :=
  match exchange with
  | .error e => .error (.network e)
  | .ok resp =>
    if resp.location.length = 0 then .error .noLocation
    else
      match findTagGroup resp.location with
      | none => .error .cantParseTag
      | some tag => .ok tag

/-! ## Per-tool provisioning entry point (`setupNamedCli`, `part_007`
lines 222-259)

`setupNamedCli` special-cases `"kubectl"`, splits an explicit
`name-version` suffix with the Go regular expression
`([a-z-]+)-([0-9]+[.]?[0-9]*[.]?[0-9]*)`, falls back to the default-version
table, locks the per-tool mutex, creates the destination directory
(`os.MkdirAll`), looks the tool up in the installer registry, and either
fails with "unable to find installer" or delegates to the registered
installer.  The embedding tracks the filesystem (as the set of existing
directories) and logs the lock/mkdir/registry-lookup side effects; the call
into a found installer is recorded as a `delegated` outcome. -/

def isLowerOrHyphen (c : Char) : Bool := ('a' ≤ c ∧ c ≤ 'z') ∨ c = '-'

/-- The `([0-9]+[.]?[0-9]*[.]?[0-9]*)` group of `versionedInstallRe`,
matched greedily with nothing after it: a digit run, an optional literal
dot, a digit run, an optional literal dot, a digit run. -/
def versionGroup (l : List Char) : List Char :=
  let d1 := l.takeWhile Char.isDigit
  let r1 := l.drop d1.length
  let (dot1, r2) := match r1 with
    | '.' :: t => (['.'], t)
    | _ => (([] : List Char), r1)
  let d2 := r2.takeWhile Char.isDigit
  let r3 := r2.drop d2.length
  let (dot2, r4) := match r3 with
    | '.' :: t => (['.'], t)
    | _ => (([] : List Char), r3)
  d1 ++ dot1 ++ d2 ++ dot2 ++ r4.takeWhile Char.isDigit

/-- Try the `([a-z-]+)` group of `versionedInstallRe` anchored at the head
of `l` with length `k` (counting down from the full `[a-z-]` run, as the
greedy group backtracks): the next character must be the literal `-` and
be followed by at least one digit. -/
def tryNameLen (l : List Char) : Nat → Option (List Char × List Char)
  | 0 => none
  | k + 1 =>
    match l.drop (k + 1) with
    | '-' :: rest2 =>
      if (rest2.takeWhile Char.isDigit).isEmpty then tryNameLen l k
      else some (l.take (k + 1), versionGroup rest2)
    | _ => tryNameLen l k

/-- Leftmost-first search of `versionedInstallRe`
(`MatchString` followed by `FindStringSubmatch`): returns the
`(name, version)` capture groups, or `none` when the expression does not
match.  (The guard `len(nameParts) < 3` in the source is unreachable: a
match always produces both groups.) -/
def findVersionedMatch : List Char → Option (List Char × List Char)
  | [] => none
  | c :: rest =>
    match tryNameLen (c :: rest) ((c :: rest).takeWhile isLowerOrHyphen).length with
    | some r => some r
    | none => findVersionedMatch rest

def splitVersionedCli (cliName : String) : Option (String × String) :=
  (findVersionedMatch cliName.data).map (fun p => (String.mk p.1, String.mk p.2))

/-- The installer registry keys (`getInstallers`, `part_007` lines
152-180). -/
def registryNames : List String :=
  ["jq", "igc", "yq", "helm", "argocd", "rosa", "kubeseal", "oc", "kustomize",
   "ibmcloud", "ibmcloud-is", "ibmcloud-ob", "ibmcloud-ks", "ibmcloud-cr",
   "gitu", "gh", "glab", "openshift-install", "operator-sdk"]

/-- The default-version table (`getDefaultVersions`, `part_007` lines
182-200): every registry key maps to `""` except three overrides; indexing
the Go map with an absent key also yields the zero value `""`. -/
def defaultVersion (name : String) : String :=
  if name = "jq" then "1.7.1"
  else if name = "igc" then "1.50.2"
  else if name = "gitu" then "1.15.0"
  else ""

/-- The observable side effects of `setupNamedCli` before any installer
body runs. -/
inductive Effect where
  | lock (key : String)
  | unlock (key : String)
  | mkdirAll (dir : String)
  | installerLookup (name : String)
deriving DecidableEq, Repr

inductive CliOutcome where
  /-- `(changed, nil)` returned directly by `setupNamedCli`. -/
  | ok (changed : Bool)
  /-- `unable to find installer for cli: <name>`. -/
  | errNoInstaller (name : String)
  /-- control handed to the registered installer for `name` with the
  resolved `version` hint; its result is returned unchanged. -/
  | delegated (name version : String)
deriving DecidableEq, Repr

structure SetupResult where
  /-- directories existing after the call (the model of the filesystem). -/
  fs : List String
  outcome : CliOutcome
  effects : List Effect
deriving DecidableEq, Repr

/-- `os.MkdirAll` on the model filesystem: create the directory if absent
(`mkdir -p` semantics; parent creation is subsumed in the single entry). -/
def mkdirAll (fs : List String) (dir : String) : List String :=
  if fs.contains dir then fs else dir :: fs

/-- Embedding of `setupNamedCli` (`part_007` lines 222-259).  Effects are
listed in execution order; the deferred mutex unlock runs when the
function returns. -/
def setupNamedCli (cliName destDir : String) (fs : List String) : SetupResult :=
  if cliName = "kubectl" then ⟨fs, .ok false, []⟩
  else
    let (name, ver) :=
      match splitVersionedCli cliName with
      | some (n, v) => (n, v)
      | none => (cliName, "")
    let version := if ver.length = 0 then defaultVersion name else ver
    let fs' := mkdirAll fs destDir
    let effects := [.lock name, .mkdirAll destDir, .installerLookup name, .unlock name]
    if registryNames.contains name then
      ⟨fs', .delegated name version, effects⟩
    else
      ⟨fs', .errNoInstaller name, effects⟩

/-- The canonical name after splitting an explicit `name-version` suffix
(the reassignment `cliName = nameParts[1]` in `setupNamedCli`). -/
def resolvedCliName (cliName : String) : String :=
  match splitVersionedCli cliName with
  | some (n, _) => n
  | none => cliName

/-! ## Concrete inputs used by counterexamples and witnesses -/

/-- A host where `jq` resolves on `PATH` outside the destination directory
and its `--version` output carries no digits. -/
def envParseFail : Env where
  lookPath := fun n => if n = "jq" then .ok "/usr/local/bin/jq" else .error "executable file not found"
  versionOutput := fun _ => .ok "version unknown"
  stat := fun _ => .notFound
  symlinkErr := none

/-- The same host, but running `jq --version` fails outright. -/
def envExecFail : Env where
  lookPath := fun n => if n = "jq" then .ok "/usr/local/bin/jq" else .error "executable file not found"
  versionOutput := fun _ => .error "exit status 1"
  stat := fun _ => .notFound
  symlinkErr := none

/-- A host where the symlink destination already exists. -/
def envLinkExists : Env where
  lookPath := fun _ => .ok "/work/bin/jq"
  versionOutput := fun _ => .error "not run"
  stat := fun _ => .found
  symlinkErr := none

/-- An archive with two regular-file entries of the same name. -/
def dupArchive : List TarEntry := [⟨.reg, "a", "x"⟩, ⟨.reg, "a", "y"⟩]

/-- The spec's synthetic archive: a directory entry plus `a/b/helm` and
`a/b/LICENSE`. -/
def helmArchive : List TarEntry :=
  [⟨.dir, "a/b", ""⟩, ⟨.reg, "a/b/helm", "helm-binary"⟩, ⟨.reg, "a/b/LICENSE", "license-text"⟩]

/-! ## Supporting lemmas -/

theorem uniqueAux_mem (l : List String) :
    ∀ (seen : List String) (x : String), x ∈ uniqueAux l seen ↔ x ∈ l ∧ x ∉ seen := by
  induction l with
  | nil => intro seen x; simp [uniqueAux]
  | cons y ys ih =>
    intro seen x
    by_cases hy : y ∈ seen
    · simp only [uniqueAux, if_pos hy, ih]
      constructor
      · rintro ⟨hx, hxs⟩
        exact ⟨List.mem_cons_of_mem _ hx, hxs⟩
      · rintro ⟨hx, hxs⟩
        rcases List.mem_cons.mp hx with rfl | hx
        · exact absurd hy hxs
        · exact ⟨hx, hxs⟩
    · simp only [uniqueAux, if_neg hy]
      constructor
      · intro hx
        rcases List.mem_cons.mp hx with rfl | hx
        · exact ⟨List.mem_cons_self _ _, hy⟩
        · rcases (ih _ _).mp hx with ⟨h1, h2⟩
          refine ⟨List.mem_cons_of_mem _ h1, fun hc => h2 (List.mem_cons_of_mem _ hc)⟩
      · rintro ⟨hx, hxs⟩
        rcases List.mem_cons.mp hx with rfl | hx
        · exact List.mem_cons_self _ _
        · by_cases hxy : x = y
          · subst hxy; exact List.mem_cons_self _ _
          · exact List.mem_cons_of_mem _ ((ih _ _).mpr
              ⟨hx, fun hc => by
                rcases List.mem_cons.mp hc with h | h
                · exact hxy h
                · exact hxs h⟩)

theorem uniqueAux_nodup (l : List String) : ∀ (seen : List String), (uniqueAux l seen).Nodup := by
  induction l with
  | nil => intro seen; simp [uniqueAux]
  | cons y ys ih =>
    intro seen
    by_cases hy : y ∈ seen
    · simpa [uniqueAux, if_pos hy] using ih seen
    · simp only [uniqueAux, if_neg hy]
      refine List.nodup_cons.mpr ⟨?_, ih _⟩
      intro hc
      exact ((uniqueAux_mem ys _ y).mp hc).2 (List.mem_cons_self _ _)

theorem unique_mem (l : List String) (x : String) : x ∈ unique l ↔ x ∈ l := by
  simpa [unique] using uniqueAux_mem l [] x

theorem unique_nodup (l : List String) : (unique l).Nodup := uniqueAux_nodup l []

theorem extractTarGzLoop_spec (env : TarEnv) (targetFile : String)
    (hw : env.writeErr = none) :
    ∀ (entries : List TarEntry) (dest : Option String) (n : Nat),
      extractTarGzLoop env targetFile entries dest n =
        .ok ⟨overwriteFold dest (matchingEntries entries targetFile),
             n + (matchingEntries entries targetFile).length⟩ := by
  intro entries
  induction entries with
  | nil => intro dest n; simp [extractTarGzLoop, matchingEntries, overwriteFold]
  | cons e rest ih =>
    intro dest n
    by_cases hm : e.type = TarType.reg ∧ e.name = targetFile
    · have hfil : matchingEntries (e :: rest) targetFile =
          e :: matchingEntries rest targetFile := by
        simp [matchingEntries, List.filter_cons, hm.1, hm.2]
      obtain ⟨hty, hnm⟩ := hm
      rcases e with ⟨ty, nm, ct⟩
      simp only at hty hnm
      subst hty hnm
      simp only [extractTarGzLoop, ne_eq, not_true_eq_false, if_false, ite_not, if_pos rfl, hw]
      rw [ih]
      rw [hfil]
      simp [overwriteFold, Nat.add_comm, Nat.add_assoc, Nat.add_left_comm]
    · have hfil : matchingEntries (e :: rest) targetFile =
          matchingEntries rest targetFile := by
        simp only [matchingEntries, List.filter_cons]
        rw [if_neg]
        simpa using hm
      have hstep : extractTarGzLoop env targetFile (e :: rest) dest n =
          extractTarGzLoop env targetFile rest dest n := by
        rcases e with ⟨ty, nm, ct⟩
        cases ty with
        | dir => rfl
        | other => rfl
        | reg =>
          have hne : nm ≠ targetFile := by
            intro hc
            exact hm ⟨rfl, hc⟩
          simp [extractTarGzLoop, hne]
      rw [hstep, hfil, ih]

theorem overwriteFold_getLast (l : List TarEntry) :
    ∀ (dest : Option String), overwriteFold dest l =
      match l.getLast? with
      | some e => some e.content
      | none => dest := by
  induction l with
  | nil => intro dest; simp [overwriteFold]
  | cons a l ih =>
    intro dest
    have h1 : overwriteFold dest (a :: l) = overwriteFold (some a.content) l := rfl
    rw [h1, ih]
    cases l with
    | nil => simp
    | cons b l' =>
      rw [List.getLast?_cons_cons]
      cases hgl : (b :: l').getLast? with
      | none => simp at hgl
      | some e => rfl

theorem extractTarGzLoop_skip (env : TarEnv) (targetFile : String) (e : TarEntry)
    (rest : List TarEntry) (dest : Option String) (n : Nat)
    (h : ¬(e.type = TarType.reg ∧ e.name = targetFile)) :
    extractTarGzLoop env targetFile (e :: rest) dest n =
      extractTarGzLoop env targetFile rest dest n := by
  rcases e with ⟨ty, nm, ct⟩
  cases ty with
  | dir => rfl
  | other => rfl
  | reg =>
    have hne : nm ≠ targetFile := by
      intro hc
      exact h ⟨rfl, hc⟩
    simp [extractTarGzLoop, hne]

theorem extractTarGzLoop_no_match (env : TarEnv) (targetFile : String) :
    ∀ (entries : List TarEntry) (dest : Option String) (n : Nat),
      (∀ e ∈ entries, ¬(e.type = TarType.reg ∧ e.name = targetFile)) →
      extractTarGzLoop env targetFile entries dest n = .ok ⟨dest, n⟩ := by
  intro entries
  induction entries with
  | nil => intro dest n _; rfl
  | cons e rest ih =>
    intro dest n h
    rw [extractTarGzLoop_skip env targetFile e rest dest n (h e (List.mem_cons_self _ _))]
    exact ih dest n (fun x hx => h x (List.mem_cons_of_mem _ hx))

theorem containsTagLit_false_tagSuffixNL (l : List Char)
    (h : containsTagLit l = false) : tagSuffixNL l = none := by
  induction l with
  | nil => rfl
  | cons c rest ih =>
    have h' : containsTagLit rest = false := by
      have := h
      simp only [containsTagLit, Bool.or_eq_false_iff] at this
      exact this.2
    have hhead : ¬((c :: rest).take 5 = tagLit) := by
      have := h
      simp only [containsTagLit, Bool.or_eq_false_iff, decide_eq_false_iff_not] at this
      exact this.1
    simp only [tagSuffixNL, ih h']
    rw [if_neg]
    intro hc
    exact hhead hc.1

theorem splitLines_no_newline (l : List Char) (h : ∀ c ∈ l, c ≠ '\n') :
    splitLines l = [l] := by
  induction l with
  | nil => rfl
  | cons c rest ih =>
    have hc : c ≠ '\n' := h c (List.mem_cons_self _ _)
    have hr : splitLines rest = [rest] := ih (fun x hx => h x (List.mem_cons_of_mem _ hx))
    simp [splitLines, hc, hr]

theorem tagSuffixNL_last (b : List Char) (hb : b ≠ [])
    (hnot : containsTagLit ('t' :: 'a' :: 'g' :: '/' :: b) = false) :
    ∀ (a : List Char), tagSuffixNL (a ++ tagLit ++ b) = some b := by
  intro a
  induction a with
  | nil =>
    have hrest : tagSuffixNL ('t' :: 'a' :: 'g' :: '/' :: b) = none :=
      containsTagLit_false_tagSuffixNL _ hnot
    have hshape : (([] : List Char) ++ tagLit ++ b) = '/' :: 't' :: 'a' :: 'g' :: '/' :: b := by
      simp [tagLit]
    have hcond : ('/' :: 't' :: 'a' :: 'g' :: '/' :: b).take 5 = tagLit ∧
        ('/' :: 't' :: 'a' :: 'g' :: '/' :: b).length > 5 := by
      refine ⟨by simp [tagLit], ?_⟩
      have : 0 < b.length := List.length_pos.mpr hb
      simp only [List.length_cons]
      omega
    rw [hshape, tagSuffixNL, hrest, if_pos hcond]
    rfl
  | cons c a' ih =>
    have h1 : (c :: a') ++ tagLit ++ b = c :: (a' ++ tagLit ++ b) := by simp
    rw [h1, tagSuffixNL, ih]

/-! ## Claim theorems -/

/-- C1: the claim says a failed parse of either the tool's reported version
or the desired minimum version is recovered locally (tool treated as
unversioned) and never aborts the run.  The code instead reaches
`log.Fatal(err1)` (`part_007` line 948, `part_011` line 836), which
terminates the whole process: with `jq` resolved outside the destination
directory, a constraint of `1.7.1` and `--version` output `"version
unknown"` (no digits, so `cleanVersionString` yields `""` and
`version.NewVersion` fails), `cliAlreadyPresent` is fatal.  The recovery
the claim describes exists only when *running* the version command fails,
as the second conjunct shows. -/
theorem C1_version_parse_failure_terminates_process :
    cliAlreadyPresent envParseFail "/work/bin" "jq" "1.7.1" = .fatal ∧
    cliAlreadyPresent envExecFail "/work/bin" "jq" "1.7.1" = .ret true := by
  constructor
  · rfl
  · rfl

/-- C2 counterexample: on an archive holding two regular entries both named
`"a"` (contents `"x"` then `"y"`), `extractTarGz` extracts *twice* and the
destination ends with the *second* entry's content, contradicting "extracts
at most one member" and "the first match wins". -/
theorem C2_counterexample :
    extractTarGz ⟨none⟩ dupArchive "a" = .ok ⟨some "y", 2⟩ ∧
    ¬(2 ≤ 1) ∧ (some "y" : Option String) ≠ some "x" := by
  refine ⟨rfl, by decide, by decide⟩

/-- C2 (amended): the tar walk has no `break` after a successful
extraction, so it continues to end-of-archive; every regular entry whose
name equals the target is extracted in turn, each overwriting the
destination file (truncate-create), so the final content is the *last*
matching entry's and the number of extractions is the number of matching
entries. -/
theorem C2_walk_reaches_eof_and_last_match_wins (env : TarEnv) (entries : List TarEntry)
    (targetFile : String) (hw : env.writeErr = none) :
    extractTarGz env entries targetFile =
      .ok ⟨(matchingEntries entries targetFile).getLast?.map TarEntry.content,
           (matchingEntries entries targetFile).length⟩ := by
  rw [extractTarGz, extractTarGzLoop_spec env targetFile hw, overwriteFold_getLast]
  cases (matchingEntries entries targetFile).getLast? with
  | none => simp
  | some e => simp

/-- Witness for C2's amended theorem on the spec's synthetic archive. -/
theorem C2_walk_witness :
    extractTarGz ⟨none⟩ helmArchive "a/b/helm" = .ok ⟨some "helm-binary", 1⟩ := by
  have h := C2_walk_reaches_eof_and_last_match_wins ⟨none⟩ helmArchive "a/b/helm" rfl
  rw [h]
  rfl

/-- C3 counterexample: provisioning the unregistered name `"foo"` does
return the "no installer" error, but only after `os.MkdirAll(destDir)` has
already created the destination directory, so a filesystem write does
happen before the failure is reported. -/
theorem C3_counterexample :
    (setupNamedCli "foo" "/work/bin" []).outcome = .errNoInstaller "foo" ∧
    (setupNamedCli "foo" "/work/bin" []).fs ≠ ([] : List String) := by
  refine ⟨rfl, by decide⟩

/-- C3 (amended): for every tool name other than the special-cased
`"kubectl"` whose canonical name (after splitting a `name-version` suffix)
has no registered installer, provisioning returns the "no installer" error,
but first acquires the per-tool lock and creates the destination directory
(`mkdir -p`); no other filesystem write occurs before the failure. -/
theorem C3_unknown_tool_errors_after_mkdir (name destDir : String) (fs : List String)
    (h1 : name ≠ "kubectl")
    (h2 : registryNames.contains (resolvedCliName name) = false) :
    setupNamedCli name destDir fs =
      ⟨mkdirAll fs destDir, .errNoInstaller (resolvedCliName name),
       [.lock (resolvedCliName name), .mkdirAll destDir,
        .installerLookup (resolvedCliName name), .unlock (resolvedCliName name)]⟩ := by
  cases hs : splitVersionedCli name with
  | none =>
    have hr : resolvedCliName name = name := by rw [resolvedCliName, hs]
    rw [hr] at h2
    have hmem : name ∉ registryNames := by simpa using h2
    simp [setupNamedCli, hs, h1, hmem, hr]
  | some p =>
    obtain ⟨n, v⟩ := p
    have hr : resolvedCliName name = n := by rw [resolvedCliName, hs]
    rw [hr] at h2
    have hmem : n ∉ registryNames := by simpa using h2
    simp [setupNamedCli, hs, h1, hmem, hr]

/-- Witness for C3's amended theorem at the concrete input of the
counterexample. -/
theorem C3_witness :
    setupNamedCli "foo" "/work/bin" [] =
      ⟨["/work/bin"], .errNoInstaller "foo",
       [.lock "foo", .mkdirAll "/work/bin", .installerLookup "foo", .unlock "foo"]⟩ := by
  have h := C3_unknown_tool_errors_after_mkdir "foo" "/work/bin" [] (by decide) (by decide)
  rw [h]
  rfl

/-- C4 counterexample: the regular expression behind `cleanVersionString`
requires a `Major` digit run *followed by a separator character and a
`Minor` digit run*, so on `"v3"` it does not match at all and the function
returns `""`, not the claimed `"3.0.0"`. -/
theorem C4_counterexample :
    cleanVersionString "v3" ≠ "3.0.0" ∧ cleanVersionString "v3" = "" := by
  refine ⟨by decide, by decide⟩

/-- C4 (amended): `cleanVersionString` extracts the first
`major.minor[.patch]` pattern from noisy text, with an absent *patch*
defaulting to `0` (`"v3.1"` → `"3.1.0"`); but a bare major with no
following separator-and-minor (`"v3"`) fails to match and yields `""`
(version-unknown), not `"3.0.0"`. -/
theorem C4_first_pattern_with_patch_default :
    cleanVersionString "jq-1.7.1 (linked...)" = "1.7.1" ∧
    goVersionParse (cleanVersionString "jq-1.7.1 (linked...)") = some [1, 7, 1] ∧
    cleanVersionString "v3.1" = "3.1.0" ∧
    cleanVersionString "v3" = "" := by
  refine ⟨by decide, by decide, by decide, by decide⟩

/-- C5: when no regular-file entry of a well-formed archive matches the
requested member path, the walk reaches end-of-archive and `extractTarGz`
returns success — the `nil` left in the outer `err` by the successful
`gzip.NewReader` call — with the destination file never created, whatever
the filesystem would have answered to a write. -/
theorem C5_absent_member_success (env : TarEnv) (entries : List TarEntry) (targetFile : String)
    (h : ∀ e ∈ entries, ¬(e.type = TarType.reg ∧ e.name = targetFile)) :
    extractTarGz env entries targetFile = .ok ⟨none, 0⟩ :=
  extractTarGzLoop_no_match env targetFile entries none 0 h

/-- Witness for C5: the target `a/b/helm` is absent from an archive holding
only `a/b/LICENSE`. -/
theorem C5_witness :
    extractTarGz ⟨some "disk full"⟩ [⟨.dir, "a/b", ""⟩, ⟨.reg, "a/b/LICENSE", "text"⟩]
      "a/b/helm" = .ok ⟨none, 0⟩ :=
  C5_absent_member_success _ _ _ (by decide)

/-- C6: the orchestrator's final tool list is `unique(defaults ++
requested)`: it is duplicate-free, contains exactly the five defaults plus
the requested names, each distinct name appears exactly once, and on the
spec's example `["jq","jq","argocd"]` it is the five defaults plus `argocd`
with `jq` once. -/
theorem C6_default_merge_dedup (requested : List String) :
    (finalClis requested).Nodup ∧
    (∀ x, x ∈ finalClis requested ↔ x ∈ defaultClis ∨ x ∈ requested) ∧
    (∀ x ∈ finalClis requested, (finalClis requested).count x = 1) ∧
    finalClis ["jq", "jq", "argocd"] = ["yq", "jq", "igc", "kubeseal", "oc", "argocd"] := by
  refine ⟨unique_nodup _, ?_, ?_, by decide⟩
  · intro x
    rw [finalClis, unique_mem, List.mem_append]
  · intro x hx
    exact List.count_eq_one_of_mem (unique_nodup _) hx

/-- Witness for C6 at the spec's example request. -/
theorem C6_witness :
    (finalClis ["jq", "jq", "argocd"]).count "jq" = 1 ∧
    "argocd" ∈ finalClis ["jq", "jq", "argocd"] := by
  refine ⟨(C6_default_merge_dedup ["jq", "jq", "argocd"]).2.2.1 "jq" ?_,
      ((C6_default_merge_dedup ["jq", "jq", "argocd"]).2.1 "argocd").mpr (Or.inr (by decide))⟩
  exact ((C6_default_merge_dedup ["jq", "jq", "argocd"]).2.1 "jq").mpr (Or.inr (by decide))

/-- C7: `createSymLink` is idempotent: when the destination link path
already exists (`os.Stat` finds it), or when the degenerate self-link case
arises (the resolved system path *is* the destination path), it returns
`changed = false` with no error and never calls `os.Symlink`, leaving the
filesystem unchanged. -/
theorem C7_createSymLink_idempotent (env : Env) (cli linkTo : String)
    (h : env.stat linkTo = .found ∨
      (env.stat linkTo = .notFound ∧ env.lookPath cli = .ok linkTo)) :
    createSymLink env cli linkTo = ⟨false, none, false⟩ := by
  rcases h with h | ⟨h1, h2⟩
  · simp [createSymLink, fileExists, h]
  · simp [createSymLink, fileExists, h1, h2]

/-- Witness for C7: the destination link already exists. -/
theorem C7_witness : createSymLink envLinkExists "jq" "/work/bin/jq" = ⟨false, none, false⟩ :=
  C7_createSymLink_idempotent envLinkExists "jq" "/work/bin/jq" (Or.inl rfl)

/-- C8: `getLatestGitHubRelease` fails exactly on the three claimed cases —
transport error (propagated), missing `Location` header ("no location"),
unparseable tag ("can't parse tag") — and otherwise returns the suffix of
the `Location` header after `/tag/`.  The model consumes a single HTTP
exchange, so no retry exists on any path. -/
theorem C8_release_resolution (e : String) (resp : GHResponse) (a b : List Char) :
    (getLatestGitHubRelease (.error e) = .error (.network e)) ∧
    (resp.location.length = 0 → getLatestGitHubRelease (.ok resp) = .error .noLocation) ∧
    (resp.location.length ≠ 0 → findTagGroup resp.location = none →
      getLatestGitHubRelease (.ok resp) = .error .cantParseTag) ∧
    ((∀ c ∈ a, c ≠ '\n') → (∀ c ∈ b, c ≠ '\n') → b ≠ [] →
      containsTagLit ('t' :: 'a' :: 'g' :: '/' :: b) = false →
      getLatestGitHubRelease (.ok ⟨String.mk (a ++ tagLit ++ b)⟩) = .ok (String.mk b)) := by
  refine ⟨rfl, ?_, ?_, ?_⟩
  · intro h
    simp only [getLatestGitHubRelease]
    rw [if_pos h]
  · intro h1 h2
    simp only [getLatestGitHubRelease]
    rw [if_neg h1, h2]
  · intro ha hbnl hb hnot
    have htagnl : ∀ x ∈ tagLit, x ≠ '\n' := by decide
    have hnl : ∀ c ∈ a ++ tagLit ++ b, c ≠ '\n' := by
      intro c hc
      rcases List.mem_append.mp hc with h | h
      · rcases List.mem_append.mp h with h' | h'
        · exact ha c h'
        · exact htagnl c h'
      · exact hbnl c h
    have hsplit : splitLines (a ++ tagLit ++ b) = [a ++ tagLit ++ b] :=
      splitLines_no_newline _ hnl
    have htag : tagSuffixNL (a ++ tagLit ++ b) = some b := tagSuffixNL_last b hb hnot a
    have hlen : ¬((String.mk (a ++ tagLit ++ b)).length = 0) := by
      show ¬((a ++ tagLit ++ b).length = 0)
      simp [tagLit]
    simp only [getLatestGitHubRelease]
    rw [if_neg hlen]
    have htag' : tagSuffixNL (a ++ (tagLit ++ b)) = some b := by
      rw [← List.append_assoc]
      exact htag
    have hgrp : findTagGroup (String.mk (a ++ tagLit ++ b)) = some (String.mk b) := by
      unfold findTagGroup
      rw [show (String.mk (a ++ tagLit ++ b)).data = a ++ tagLit ++ b from rfl, hsplit]
      simp [firstSome, htag']
    rw [hgrp]

/-- Witness for C8: all four branches at concrete exchanges. -/
theorem C8_witness :
    getLatestGitHubRelease (.error "dial tcp: timeout") = .error (.network "dial tcp: timeout") ∧
    getLatestGitHubRelease (.ok ⟨""⟩) = .error .noLocation ∧
    getLatestGitHubRelease (.ok ⟨"https://github.com/x/y/releases"⟩) = .error .cantParseTag ∧
    getLatestGitHubRelease (.ok ⟨"https://github.com/cli/cli/releases/tag/v2.49.0"⟩) =
      .ok "v2.49.0" := by
  refine ⟨(C8_release_resolution "dial tcp: timeout" ⟨""⟩ [] []).1,
    (C8_release_resolution "" ⟨""⟩ [] []).2.1 rfl,
    (C8_release_resolution "" ⟨"https://github.com/x/y/releases"⟩ [] []).2.2.1
      (by decide) (by decide), ?_⟩
  have h := (C8_release_resolution "" ⟨""⟩ "https://github.com/cli/cli/releases".data
    "v2.49.0".data).2.2.2 (by decide) (by decide) (by decide) (by decide)
  have hstr : String.mk ("https://github.com/cli/cli/releases".data ++ tagLit ++
      "v2.49.0".data) = "https://github.com/cli/cli/releases/tag/v2.49.0" := by decide
  have hstr2 : String.mk "v2.49.0".data = "v2.49.0" := by decide
  rw [hstr, hstr2] at h
  exact h

/-- C10: provisioning the name `"kubectl"` returns `(false, nil)`
immediately: the filesystem is untouched and no lock acquisition, directory
creation or registry lookup happens — although `kubectl` has no registered
installer of its own. -/
theorem C10_kubectl_short_circuit (destDir : String) (fs : List String) :
    setupNamedCli "kubectl" destDir fs = ⟨fs, .ok false, []⟩ ∧
    registryNames.contains "kubectl" = false := by
  refine ⟨?_, by decide⟩
  unfold setupNamedCli
  rw [if_pos rfl]

end Clis
